import Mathlib

/-!
Verification of the markdown-digest parsing and property-extraction engine
(`src/digest.py`, functions `parse_line_with_links`, `markdown_to_notion_blocks`,
`extract_table_value`, the numeric extraction in `extract_digest_properties`
and the market-data backfill merge).

Strings are modelled as `List Char`, matching Python's code-point indexing.
Python whitespace (`str.strip`, regex `\s`) is modelled by `isPySpace`;
Python `str.isdigit` / regex `\d` are modelled as ASCII decimal digits,
which is the character class the digest template uses.
-/

/-- Python whitespace: the characters stripped by `str.strip()` and matched
by `\s` in a `str` regex (ASCII whitespace plus the common Unicode spaces). -/
def isPySpace (c : Char) : Bool :=
  c.toNat = 0x20 || c.toNat = 0x09 || c.toNat = 0x0a || c.toNat = 0x0d ||
  c.toNat = 0x0b || c.toNat = 0x0c ||
  c.toNat = 0x1c || c.toNat = 0x1d || c.toNat = 0x1e || c.toNat = 0x1f ||
  c.toNat = 0x85 || c.toNat = 0xa0 || c.toNat = 0x1680 ||
  (0x2000 ≤ c.toNat && c.toNat ≤ 0x200a) ||
  c.toNat = 0x2028 || c.toNat = 0x2029 || c.toNat = 0x202f ||
  c.toNat = 0x205f || c.toNat = 0x3000

/-- `s.startswith(p)` on code-point lists. -/
def startsWithL : List Char → List Char → Bool
  | _, [] => true
  | [], _ :: _ => false
  | c :: cs, p :: ps => c = p && startsWithL cs ps

/-- Remove trailing Python whitespace. -/
def dropTrailingWs (l : List Char) : List Char :=
  (l.reverse.dropWhile isPySpace).reverse

/-- Python `str.strip()`: remove leading and trailing whitespace. -/
def stripL (l : List Char) : List Char :=
  dropTrailingWs (l.dropWhile isPySpace)

/-- Python `str.split(sep)` for a one-character separator: every occurrence
splits, empty pieces are kept, and the result is never empty. -/
def splitOnChar (sep : Char) : List Char → List (List Char)
  | [] => [[]]
  | c :: cs =>
    let r := splitOnChar sep cs
    if c = sep then [] :: r
    else
      match r with
      | [] => [[c]]
      | h :: t => (c :: h) :: t

/-- Python slice `t[a:b]` (clamping, empty when `b ≤ a`). -/
def sliceL (t : List Char) (a b : Nat) : List Char :=
  (t.take b).drop a

/-- Helper for `str.find`: first index (counted from `i`) where `sub` is a
prefix of the remaining text. -/
def findSubAux (sub : List Char) : List Char → Nat → Option Nat
  | t, i =>
    if startsWithL t sub then some i
    else
      match t with
      | [] => none
      | _ :: rest => findSubAux sub rest (i + 1)

/-- Python `text.find(sub, start)` (with `none` for `-1`); `start` is at most
`text.length` at every use site below. -/
def findSub (text sub : List Char) (start : Nat) : Option Nat :=
  findSubAux sub (text.drop start) start

/-- Strip the literal `p` from the front of `l` (case-sensitive). -/
def dropLit : List Char → List Char → Option (List Char)
  | [], l => some l
  | _ :: _, [] => none
  | p :: ps, c :: cs => if c = p then dropLit ps cs else none

/-- Strip the literal `p` from the front of `l`, ignoring ASCII case
(the `re.IGNORECASE` patterns below). -/
def dropLitCI : List Char → List Char → Option (List Char)
  | [], l => some l
  | _ :: _, [] => none
  | p :: ps, c :: cs => if c.toLower = p.toLower then dropLitCI ps cs else none

/-- `l.span p` written with `takeWhile`/`dropWhile`, the form the proofs use. -/
def spanP (p : Char → Bool) (l : List Char) : List Char × List Char :=
  (l.takeWhile p, l.dropWhile p)

/-- One rich-text object produced by `parse_line_with_links`: either a plain
text span or a link span (`content` is the link's inner text). -/
inductive Span where
  | text (content : List Char)
  | link (content : List Char) (url : List Char)
deriving DecidableEq, Repr

/-- The `content` field of a span. -/
def spanContent : Span → List Char
  | .text c => c
  | .link c _ => c

/-- Concatenation of the spans' contents: the rendered text. -/
def spanConcat (ss : List Span) : List Char :=
  (ss.map spanContent).flatten

/-- The pieces captured by one match of `<a\s+href="([^"]*)">([^<]*)</a>`:
the whitespace after `<a`, the `url` group and the inner-text group. -/
structure LinkMatch where
  ws : List Char
  url : List Char
  inner : List Char
deriving DecidableEq, Repr

def hrefLit : List Char := ['h', 'r', 'e', 'f', '=', '"']

def closeALit : List Char := ['<', '/', 'a', '>']

/-- The full text consumed by a match. -/
def matchText (m : LinkMatch) : List Char :=
  '<' :: 'a' :: m.ws ++ hrefLit ++ m.url ++ '"' :: '>' :: m.inner ++ closeALit

/-- Try to match the anchor pattern `<a\s+href="([^"]*)">([^<]*)</a>` at the
head of `cs`. The regex is deterministic: `\s+` is followed by `h` (not a
whitespace char), `[^"]*` by `"` and `[^<]*` by `<`, so each greedy run is the
maximal one and no backtracking can produce a different match. -/
def tryLinkAt (cs : List Char) : Option (LinkMatch × List Char) :=
  match dropLit ['<', 'a'] cs with
  | none => none
  | some rest =>
    let s1 := spanP isPySpace rest
    if s1.1 = [] then none
    else
      match dropLit hrefLit s1.2 with
      | none => none
      | some r2 =>
        let s2 := spanP (fun c => !(c = '"')) r2
        match dropLit ['"', '>'] s2.2 with
        | none => none
        | some r4 =>
          let s3 := spanP (fun c => !(c = '<')) r4
          match dropLit closeALit s3.2 with
          | none => none
          | some r6 => some ({ ws := s1.1, url := s2.1, inner := s3.1 }, r6)

theorem dropLit_eq (p : List Char) : ∀ l r, dropLit p l = some r → l = p ++ r := by
  induction p with
  | nil => intro l r h; simpa [dropLit] using h
  | cons c cs ih =>
    intro l r h
    cases l with
    | nil => simp [dropLit] at h
    | cons x xs =>
      simp only [dropLit] at h
      split at h
      · rename_i hx
        simpa [hx] using ih xs r h
      · exact absurd h (by simp)

theorem spanP_append (p : Char → Bool) (l : List Char) :
    (spanP p l).1 ++ (spanP p l).2 = l := by
  simp [spanP, List.takeWhile_append_dropWhile]

theorem tryLinkAt_eq {cs : List Char} {m : LinkMatch} {rest : List Char}
    (h : tryLinkAt cs = some (m, rest)) : cs = matchText m ++ rest := by
  unfold tryLinkAt at h
  split at h
  · exact absurd h (by simp)
  · rename_i r0 h0
    simp only at h
    split at h
    · exact absurd h (by simp)
    · rename_i hws
      split at h
      · exact absurd h (by simp)
      · rename_i r2 hdrop
        split at h
        · exact absurd h (by simp)
        · rename_i r4 hs2
          split at h
          · exact absurd h (by simp)
          · rename_i r6 hdrop2
            injection h with h'
            injection h' with hm hrest
            subst hrest
            have e0 : cs = ['<', 'a'] ++ r0 := dropLit_eq _ _ _ h0
            have e1 : (spanP isPySpace r0).1 ++ (spanP isPySpace r0).2 = r0 :=
              spanP_append _ _
            have e2 : (spanP isPySpace r0).2 = hrefLit ++ r2 := dropLit_eq _ _ _ hdrop
            have e3 : (spanP (fun c => !(c = '"')) r2).1 ++
                (spanP (fun c => !(c = '"')) r2).2 = r2 := spanP_append _ _
            have e4 : (spanP (fun c => !(c = '"')) r2).2 = ['"', '>'] ++ r4 :=
              dropLit_eq _ _ _ hs2
            have e5 : (spanP (fun c => !(c = '<')) r4).1 ++
                (spanP (fun c => !(c = '<')) r4).2 = r4 := spanP_append _ _
            have e6 : (spanP (fun c => !(c = '<')) r4).2 = closeALit ++ r6 :=
              dropLit_eq _ _ _ hdrop2
            subst hm
            have e0' : cs = '<' :: 'a' :: r0 := by simpa using e0
            have e4' : (spanP (fun c => !(c = '"')) r2).2 = '"' :: '>' :: r4 := by
              simpa using e4
            rw [e0']
            simp only [matchText, List.cons_append, List.append_assoc]
            rw [← e6, e5, ← e4', e3, ← e2, e1]

theorem tryLinkAt_length {cs : List Char} {m : LinkMatch} {rest : List Char}
    (h : tryLinkAt cs = some (m, rest)) : rest.length < cs.length := by
  have := tryLinkAt_eq h
  subst this
  simp [matchText]
  omega

/-- `re.finditer` over the anchor pattern: returns, in source order, the pairs
(gap of unmatched text before the match, match) together with the trailing
unmatched text. Scanning is left-to-right and non-overlapping, as in Python:
at each position the pattern is tried, and on failure the scan advances one
character. `fuel` only forces termination: one unit is spent per step while
each step consumes at least one character, so `fuel = cs.length` (as used by
`linkScan` below) never runs out. -/
def linkScanF : Nat → List Char → List (List Char × LinkMatch) × List Char
  | 0, cs => ([], cs)
  | _ + 1, [] => ([], [])
  | fuel + 1, c :: rest0 =>
    match tryLinkAt (c :: rest0) with
    | some (m, rest) =>
      let r := linkScanF fuel rest
      (([], m) :: r.1, r.2)
    | none =>
      let r := linkScanF fuel rest0
      match r.1 with
      | [] => ([], c :: r.2)
      | (g, m2) :: ps2 => ((c :: g, m2) :: ps2, r.2)

/-- The scan of a whole line. -/
def linkScan (cs : List Char) : List (List Char × LinkMatch) × List Char :=
  linkScanF cs.length cs

/-- The scan decomposes the input: the input is the gaps and matched anchor
texts, interleaved in order, followed by the trailing text. -/
theorem linkScanF_decomp :
    ∀ fuel cs, cs.length ≤ fuel →
      cs = (linkScanF fuel cs).1.foldr
        (fun gm acc => gm.1 ++ matchText gm.2 ++ acc) (linkScanF fuel cs).2 := by
  intro fuel
  induction fuel with
  | zero =>
    intro cs h
    simp [linkScanF]
  | succ n ih =>
    intro cs h
    match cs with
    | [] => simp [linkScanF]
    | c :: rest0 =>
      simp only [linkScanF]
      cases htry : tryLinkAt (c :: rest0) with
      | some mr =>
        obtain ⟨m, rest⟩ := mr
        simp only [htry]
        have hlen : rest.length ≤ n := by
          have hlt := tryLinkAt_length htry
          simp only [List.length_cons] at hlt h
          omega
        have ihr := ih rest hlen
        simp only [List.foldr_cons, List.nil_append]
        rw [← ihr]
        exact tryLinkAt_eq htry
      | none =>
        simp only [htry]
        have hlen : rest0.length ≤ n := by
          simp only [List.length_cons] at h
          omega
        have ihr := ih rest0 hlen
        cases hr : (linkScanF n rest0).1 with
        | nil =>
          simp only [hr]
          rw [hr, List.foldr_nil] at ihr
          simp [← ihr]
        | cons gm ps2 =>
          obtain ⟨g, m2⟩ := gm
          simp only [hr]
          rw [hr] at ihr
          simp only [List.foldr_cons] at ihr ⊢
          simp only [List.cons_append, List.append_assoc] at ihr ⊢
          rw [← ihr]

/-- `linkScan` decomposes the line. -/
theorem linkScan_decomp (cs : List Char) :
    cs = (linkScan cs).1.foldr (fun gm acc => gm.1 ++ matchText gm.2 ++ acc)
      (linkScan cs).2 :=
  linkScanF_decomp cs.length cs (Nat.le_refl _)

/-- The span-emission loop of `parse_line_with_links`: for each match, a
`Text` span for the preceding unmatched gap (only if non-empty) and then the
`Link` span; after the last match, a `Text` span for the trailing unmatched
text (only if non-empty). -/
def buildSpans (ps : List (List Char × LinkMatch)) (t : List Char) : List Span :=
  ps.foldr
    (fun gm acc =>
      (if gm.1 = [] then [] else [Span.text gm.1]) ++
        Span.link gm.2.inner gm.2.url :: acc)
    (if t = [] then [] else [Span.text t])

/-- `parse_line_with_links` (src/digest.py:594-641): scan the line for
`<a href="url">text</a>` matches and emit text/link spans; if no span was
emitted, fall back to a single plain-text span holding the whole line. -/
def parse_line_with_links (line : List Char) : List Span :=
  let r := linkScan line
  let rich := buildSpans r.1 r.2
  if rich = [] then [Span.text line] else rich

/-- The line with each matched anchor's markup removed and its inner text
kept in place: gaps and inner texts, interleaved in order, then the trailing
unmatched text. -/
def stripAnchorTags (line : List Char) : List Char :=
  (linkScan line).1.foldr (fun gm acc => gm.1 ++ gm.2.inner ++ acc)
    (linkScan line).2

theorem buildSpans_length (ps : List (List Char × LinkMatch)) (t : List Char) :
    (buildSpans ps t).length ≤ 2 * ps.length + 1 := by
  induction ps with
  | nil =>
    by_cases h : t = [] <;> simp [buildSpans, h]
  | cons gm ps ih =>
    have hstep : buildSpans (gm :: ps) t =
        (if gm.1 = [] then [] else [Span.text gm.1]) ++
          Span.link gm.2.inner gm.2.url :: buildSpans ps t := rfl
    rw [hstep]
    by_cases h : gm.1 = [] <;> simp [h, List.length_append] <;> omega

theorem buildSpans_concat (ps : List (List Char × LinkMatch)) (t : List Char) :
    spanConcat (buildSpans ps t) =
      ps.foldr (fun gm acc => gm.1 ++ gm.2.inner ++ acc) t := by
  induction ps with
  | nil =>
    by_cases h : t = [] <;> simp [buildSpans, spanConcat, spanContent, h]
  | cons gm ps ih =>
    by_cases h : gm.1 = [] <;>
      simp [buildSpans, spanConcat, spanContent, h, List.append_assoc] at ih ⊢ <;>
      simp [ih, h]

theorem buildSpans_eq_nil {ps : List (List Char × LinkMatch)} {t : List Char}
    (h : buildSpans ps t = []) : ps = [] ∧ t = [] := by
  cases ps with
  | nil =>
    refine ⟨rfl, ?_⟩
    by_cases ht : t = []
    · exact ht
    · simp [buildSpans, ht] at h
  | cons gm ps =>
    exfalso
    by_cases hg : gm.1 = [] <;> simp [buildSpans, hg] at h


/-- C3: for every line with N non-overlapping anchor matches (N is the number
of matches `linkScan` finds), `parse_line_with_links` returns at most 2N+1
spans, and concatenating the spans' `content` fields in order yields the line
with the anchor open/close markup removed and each anchor's inner text kept in
place (`stripAnchorTags`); the third conjunct certifies that reading: the line
itself is the gaps and full anchor texts interleaved, so `stripAnchorTags`
differs from the line exactly by dropping each match's markup. -/
theorem parse_line_with_links_bound_and_reconstruction (line : List Char) :
    (parse_line_with_links line).length ≤ 2 * (linkScan line).1.length + 1 ∧
    spanConcat (parse_line_with_links line) = stripAnchorTags line ∧
    line = (linkScan line).1.foldr (fun gm acc => gm.1 ++ matchText gm.2 ++ acc)
      (linkScan line).2 := by
  refine ⟨?_, ?_, linkScan_decomp line⟩
  · show (if buildSpans (linkScan line).1 (linkScan line).2 = []
        then [Span.text line]
        else buildSpans (linkScan line).1 (linkScan line).2).length ≤
      2 * (linkScan line).1.length + 1
    by_cases h : buildSpans (linkScan line).1 (linkScan line).2 = []
    · rw [if_pos h]
      simp only [List.length_singleton]
      omega
    · rw [if_neg h]
      exact buildSpans_length _ _
  · show spanConcat (if buildSpans (linkScan line).1 (linkScan line).2 = []
        then [Span.text line]
        else buildSpans (linkScan line).1 (linkScan line).2) = stripAnchorTags line
    by_cases h : buildSpans (linkScan line).1 (linkScan line).2 = []
    · obtain ⟨hp, ht⟩ := buildSpans_eq_nil h
      have hline : line = [] := by
        have hd := linkScan_decomp line
        rw [hp, ht, List.foldr_nil] at hd
        exact hd
      rw [if_pos h]
      unfold stripAnchorTags
      rw [hp, ht, List.foldr_nil, hline]
      simp [spanConcat, spanContent]
    · rw [if_neg h]
      exact buildSpans_concat _ _

/-- C4: a line on which the anchor pattern never matches yields exactly one
plain `Text` span whose content is the whole line verbatim (this includes the
empty line). -/
theorem parse_line_with_links_no_match (line : List Char)
    (h : (linkScan line).1 = []) :
    parse_line_with_links line = [Span.text line] := by
  have hline : line = (linkScan line).2 := by
    have hd := linkScan_decomp line
    rwa [h, List.foldr_nil] at hd
  show (if buildSpans (linkScan line).1 (linkScan line).2 = []
      then [Span.text line]
      else buildSpans (linkScan line).1 (linkScan line).2) = [Span.text line]
  by_cases ht : (linkScan line).2 = []
  · have hb0 : buildSpans (linkScan line).1 (linkScan line).2 = [] := by
      rw [h, ht]; rfl
    rw [if_pos hb0]
  · have hb1 : buildSpans (linkScan line).1 (linkScan line).2 =
        [Span.text (linkScan line).2] := by
      rw [h]
      simp [buildSpans, ht]
    rw [hb1]
    rw [if_neg (by simp : ¬([Span.text (linkScan line).2] = ([] : List Span)))]
    rw [← hline]

theorem parse_line_with_links_no_match_witness :
    (linkScan ("Hello world".data)).1 = [] ∧
    parse_line_with_links ("Hello world".data) = [Span.text ("Hello world".data)] :=
  ⟨by decide, parse_line_with_links_no_match _ (by decide)⟩

example :
    parse_line_with_links ("<a href=\"http://x.test\">Co X</a> up 5%".data) =
      [Span.link ("Co X".data) ("http://x.test".data),
       Span.text (" up 5%".data)] := by decide

theorem isDigit_pySpace_false {c : Char} (h : c.isDigit = true) :
    isPySpace c = false := by
  simp only [Char.isDigit, Bool.and_eq_true, decide_eq_true_eq, ge_iff_le] at h
  obtain ⟨h1, h2⟩ := h
  have hn1 : 48 ≤ c.toNat := UInt32.le_toNat_of_le (by decide) h1
  have hn2 : c.toNat ≤ 57 := UInt32.toNat_le_of_le (by decide) h2
  simp only [isPySpace, Bool.or_eq_false_iff, Bool.and_eq_false_iff,
    decide_eq_false_iff_not]
  omega

theorem isDigit_ne {c d : Char} (h : c.isDigit = true) (hd : d.isDigit = false) :
    c ≠ d := by
  intro he
  rw [he] at h
  rw [h] at hd
  exact absurd hd (by simp)

theorem dropWhile_append_singleton {c : Char} (h : isPySpace c = false) :
    ∀ xs : List Char,
      (xs ++ [c]).dropWhile isPySpace = xs.dropWhile isPySpace ++ [c] := by
  intro xs
  induction xs with
  | nil => simp [List.dropWhile, h]
  | cons x xs ih =>
    by_cases hx : isPySpace x = true
    · simp [List.dropWhile, hx, ih]
    · simp at hx
      simp [List.dropWhile, hx]

/-- Stripping a line whose first character is not whitespace keeps that
character in front. -/
theorem stripL_cons_of_not_space {c : Char} {t : List Char}
    (h : isPySpace c = false) :
    stripL (c :: t) = c :: (t.reverse.dropWhile isPySpace).reverse := by
  unfold stripL dropTrailingWs
  rw [List.dropWhile_cons_of_neg (by simp [h]), List.reverse_cons,
    dropWhile_append_singleton h, List.reverse_append]
  simp

def divOpenLit : List Char := ['<', 'd', 'i', 'v']

def divCloseLit : List Char := ['<', '/', 'd', 'i', 'v', '>']

/-- `re.sub(r'<div[^>]*>', '', text)` (src/digest.py:653): left-to-right,
non-overlapping; at a position matching `<div` the match extends through the
first following `>` (no match if none exists). Fuel forces termination; each
step consumes at least one character, so `fuel = length` never runs out. -/
def subDivOpenF : Nat → List Char → List Char
  | 0, cs => cs
  | _ + 1, [] => []
  | fuel + 1, c :: cs =>
    match dropLit divOpenLit (c :: cs) with
    | some r =>
      match (spanP (fun x => !(x = '>')) r).2 with
      | '>' :: rest => subDivOpenF fuel rest
      | _ => c :: subDivOpenF fuel cs
    | none => c :: subDivOpenF fuel cs

/-- `re.sub(r'</div>', '', text)` (src/digest.py:654). -/
def subDivCloseF : Nat → List Char → List Char
  | 0, cs => cs
  | _ + 1, [] => []
  | fuel + 1, c :: cs =>
    match dropLit divCloseLit (c :: cs) with
    | some rest => subDivCloseF fuel rest
    | none => c :: subDivCloseF fuel cs

/-- The negative lookahead `(?!a\s)`: does the text start with `a` followed
by a whitespace character? -/
def looksLikeOpenA (cs : List Char) : Bool :=
  match cs with
  | 'a' :: d :: _ => isPySpace d
  | _ => false

/-- `re.sub(r'<(?!a\s)(?!/a>)[^>]+>', '', text)` (src/digest.py:656): remove
any tag except an opening `<a ...>` or closing `</a>`; `[^>]+` requires at
least one character before the closing `>`. -/
def subOtherTagsF : Nat → List Char → List Char
  | 0, cs => cs
  | _ + 1, [] => []
  | fuel + 1, c :: cs =>
    if c = '<' then
      if looksLikeOpenA cs || startsWithL cs ['/', 'a', '>'] then
        c :: subOtherTagsF fuel cs
      else
        match (spanP (fun x => !(x = '>')) cs).1 with
        | [] => c :: subOtherTagsF fuel cs
        | _ :: _ =>
          match (spanP (fun x => !(x = '>')) cs).2 with
          | '>' :: rest => subOtherTagsF fuel rest
          | _ => c :: subOtherTagsF fuel cs
    else c :: subOtherTagsF fuel cs

/-- The three HTML-stripping substitutions applied by
`markdown_to_notion_blocks` before line classification. -/
def stripHtmlTags (text : List Char) : List Char :=
  let t1 := subDivOpenF text.length text
  let t2 := subDivCloseF t1.length t1
  subOtherTagsF t2.length t2

/-- One Notion block as built by `markdown_to_notion_blocks`
(src/digest.py:644-740). -/
inductive Block where
  | heading1 (rich : List Span)
  | heading2 (rich : List Span)
  | heading3 (rich : List Span)
  | divider
  | bulletItem (rich : List Span)
  | numberedItem (rich : List Span)
  | paragraph (rich : List Span)
deriving DecidableEq, Repr

/-- The body of the per-line `while` loop of `markdown_to_notion_blocks`,
branches in source order: heading 1/2/3, horizontal rule, table-separator
line (skipped), bulleted item, numbered item, non-blank paragraph; a blank
line produces no block. -/
def classifyLine (line : List Char) : Option Block :=
  if startsWithL line ['#', ' '] then
    some (.heading1 (parse_line_with_links ((stripL (line.drop 2)).take 2000)))
  else if startsWithL line ['#', '#', ' '] then
    some (.heading2 (parse_line_with_links ((stripL (line.drop 3)).take 2000)))
  else if startsWithL line ['#', '#', '#', ' '] then
    some (.heading3 (parse_line_with_links ((stripL (line.drop 4)).take 2000)))
  else if stripL line = ['-', '-', '-'] then
    some .divider
  else if startsWithL (stripL line) ['|'] && line.contains '-' &&
      3 < line.count '-' then
    none
  else if startsWithL (stripL line) ['-', ' '] ||
      startsWithL (stripL line) ['*', ' '] then
    some (.bulletItem
      (parse_line_with_links ((stripL ((stripL line).drop 2)).take 2000)))
  else if 2 < line.length && (line.headD ' ').isDigit &&
      (decide (sliceL line 1 3 = ['.', ' ']) ||
        decide (sliceL line 1 3 = [')', ' '])) then
    some (.numberedItem
      (parse_line_with_links ((stripL (line.drop 3)).take 2000)))
  else if !(stripL line).isEmpty then
    some (.paragraph (parse_line_with_links ((stripL line).take 2000)))
  else none

/-- `markdown_to_notion_blocks` (src/digest.py:644-740): strip HTML tags,
split into lines, classify each line in order. -/
def markdown_to_notion_blocks (text : List Char) : List Block :=
  (splitOnChar '\n' (stripHtmlTags text)).filterMap classifyLine

/-- The rich-text spans carried by a block (`[]` for a divider). -/
def blockSpans : Block → List Span
  | .heading1 rs => rs
  | .heading2 rs => rs
  | .heading3 rs => rs
  | .divider => []
  | .bulletItem rs => rs
  | .numberedItem rs => rs
  | .paragraph rs => rs

/-- The rendered text of a block: its spans' contents concatenated. -/
def renderedText (b : Block) : List Char :=
  spanConcat (blockSpans b)

theorem parse_line_with_links_ne_nil (line : List Char) :
    parse_line_with_links line ≠ [] := by
  show (if buildSpans (linkScan line).1 (linkScan line).2 = []
      then [Span.text line]
      else buildSpans (linkScan line).1 (linkScan line).2) ≠ []
  by_cases h : buildSpans (linkScan line).1 (linkScan line).2 = []
  · rw [if_pos h]; simp
  · rw [if_neg h]; exact h

/-- C2 (amended): every text-bearing block emitted by the Block Parser has a
non-empty spans sequence (the resolver always emits at least one span), but a
block's rendered text can still be empty — see the counterexample theorem for
the heading-marker-only line. -/
theorem blocks_spans_nonempty (text : List Char) (b : Block)
    (hb : b ∈ markdown_to_notion_blocks text) :
    b = Block.divider ∨ blockSpans b ≠ [] := by
  unfold markdown_to_notion_blocks at hb
  rw [List.mem_filterMap] at hb
  obtain ⟨line, _, hcl⟩ := hb
  unfold classifyLine at hcl
  split_ifs at hcl <;>
    first
      | (injection hcl with h'
         subst h'
         exact Or.inl rfl)
      | (injection hcl with h'
         subst h'
         exact Or.inr (by simp [blockSpans, parse_line_with_links_ne_nil]))

theorem blocks_spans_nonempty_witness :
    Block.paragraph [Span.text ("hi".data)] = Block.divider ∨
      blockSpans (Block.paragraph [Span.text ("hi".data)]) ≠ [] :=
  blocks_spans_nonempty ("hi".data) (Block.paragraph [Span.text ("hi".data)])
    (by decide)

/-- C2 (counterexample): the line consisting of just the level-1 heading
marker `"# "` is emitted as a heading block whose single text span is empty,
so its rendered text is empty — refuting the claim that every emitted block
has non-empty rendered text. -/
theorem blocks_empty_rendered_counterexample :
    markdown_to_notion_blocks ("# ".data) = [Block.heading1 [Span.text []]] ∧
    renderedText (Block.heading1 [Span.text []]) = [] := by
  constructor
  · decide
  · decide

/-- C7 (counterexample): the indented line `" 1. Item C"` has a trimmed form
beginning with `1. `, yet the parser emits it as a plain paragraph (keeping
the marker), not as a numbered item: the numbered-item test reads the raw,
untrimmed line. -/
theorem numbered_item_ignores_indent_counterexample :
    startsWithL (stripL (" 1. Item C".data)) ("1. ".data) = true ∧
    markdown_to_notion_blocks (" 1. Item C".data) =
      [Block.paragraph [Span.text ("1. Item C".data)]] := by
  constructor
  · decide
  · decide

/-- C7 (amended): a line is classified as a numbered item exactly when the
raw line (leading whitespace included) is longer than 2, starts with a digit,
and its second and third characters are `". "` or `") "`; and the scenario
`"- Item A\n* Item B\n1. Item C\n"` yields exactly the two bulleted items and
one numbered item, in order, with the markers stripped. -/
theorem numbered_item_classification (line : List Char) :
    ((∃ rs, classifyLine line = some (Block.numberedItem rs)) ↔
      (2 < line.length ∧ (line.headD ' ').isDigit = true ∧
        (sliceL line 1 3 = ['.', ' '] ∨ sliceL line 1 3 = [')', ' ']))) ∧
    markdown_to_notion_blocks ("- Item A\n* Item B\n1. Item C\n".data) =
      [Block.bulletItem [Span.text ("Item A".data)],
       Block.bulletItem [Span.text ("Item B".data)],
       Block.numberedItem [Span.text ("Item C".data)]] := by
  constructor
  · constructor
    · rintro ⟨rs, h⟩
      unfold classifyLine at h
      split_ifs at h with h1 h2 h3 h4 h5 h6 h7 h8 <;>
        first
          | (simp only [Bool.and_eq_true, Bool.or_eq_true,
               decide_eq_true_eq] at h7
             exact ⟨h7.1.1, h7.1.2, h7.2⟩)
          | exact absurd h (by simp)
    · rintro ⟨hlen, hdig, hsl⟩
      match line, hlen with
      | c :: t, hlen =>
        have hdig' : c.isDigit = true := by simpa using hdig
        have hlen' : 2 < t.length + 1 := by simpa using hlen
        have hws := isDigit_pySpace_false hdig'
        have hstrip := stripL_cons_of_not_space (t := t) hws
        have hhash : c ≠ '#' := isDigit_ne hdig' (by decide)
        have hdash : c ≠ '-' := isDigit_ne hdig' (by decide)
        have hstar : c ≠ '*' := isDigit_ne hdig' (by decide)
        have hpipe : c ≠ '|' := isDigit_ne hdig' (by decide)
        unfold classifyLine
        rw [if_neg (by simp [startsWithL, hhash]),
          if_neg (by simp [startsWithL, hhash]),
          if_neg (by simp [startsWithL, hhash]),
          if_neg (by simp [hstrip, hdash]),
          if_neg (by simp [hstrip, startsWithL, hpipe]),
          if_neg (by simp [hstrip, startsWithL, hdash, hstar]),
          if_pos (by
            rcases hsl with hsl | hsl <;>
              simp [hlen', hdig', hsl])]
        exact ⟨_, rfl⟩
  · decide

theorem dropWhile_append_of_ne_nil {a : List Char}
    (h : a.dropWhile isPySpace ≠ []) (b : List Char) :
    (a ++ b).dropWhile isPySpace = a.dropWhile isPySpace ++ b := by
  induction a with
  | nil => simp at h
  | cons x a ih =>
    by_cases hx : isPySpace x = true
    · rw [List.dropWhile_cons_of_pos hx] at h
      rw [List.cons_append, List.dropWhile_cons_of_pos hx,
        List.dropWhile_cons_of_pos hx, ih h]
    · simp at hx
      rw [List.cons_append, List.dropWhile_cons_of_neg (by simp [hx]),
        List.dropWhile_cons_of_neg (by simp [hx])]
      simp

theorem dropTrailingWs_append (xs : List Char) {ys : List Char}
    (h : dropTrailingWs ys ≠ []) :
    dropTrailingWs (xs ++ ys) = xs ++ dropTrailingWs ys := by
  unfold dropTrailingWs at h ⊢
  have h' : ys.reverse.dropWhile isPySpace ≠ [] := by
    intro he
    rw [he] at h
    simp at h
  rw [List.reverse_append, dropWhile_append_of_ne_nil h', List.reverse_append,
    List.reverse_reverse]

theorem dropTrailingWs_cons_of_not_space {c : Char} {t : List Char}
    (h : isPySpace c = false) :
    dropTrailingWs (c :: t) = c :: (t.reverse.dropWhile isPySpace).reverse := by
  unfold dropTrailingWs
  rw [List.reverse_cons, dropWhile_append_singleton h, List.reverse_append]
  simp

theorem startsWithL_self_append : ∀ p q : List Char,
    startsWithL (p ++ q) p = true := by
  intro p
  induction p with
  | nil => intro q; cases q <;> simp [startsWithL]
  | cons c p ih => intro q; simp [startsWithL, ih]

/-- C10: a non-indented line that begins with a multi-digit number followed
by `". "` or `") "` (for example `"10. Item"` or `"10) Item"`) is classified
as a paragraph whose text keeps the numeric marker (the trimmed line still
starts with the digits and the dot or closing parenthesis), not as a
numbered item. -/
theorem multi_digit_marker_is_paragraph (ds r : List Char) (m : Char)
    (hlen : 2 ≤ ds.length) (hds : ∀ c ∈ ds, c.isDigit = true)
    (hm : m = '.' ∨ m = ')') :
    classifyLine (ds ++ m :: ' ' :: r) =
      some (Block.paragraph
        (parse_line_with_links ((stripL (ds ++ m :: ' ' :: r)).take 2000))) ∧
    startsWithL (stripL (ds ++ m :: ' ' :: r)) (ds ++ [m]) = true := by
  have hmws : isPySpace m = false := by
    rcases hm with h | h <;> subst h <;> decide
  match ds, hlen with
  | d0 :: d1 :: ds', _ =>
    have hd0 : d0.isDigit = true := hds d0 (by simp)
    have hd1 : d1.isDigit = true := hds d1 (by simp)
    have hws0 := isDigit_pySpace_false hd0
    have hhash : d0 ≠ '#' := isDigit_ne hd0 (by decide)
    have hdash : d0 ≠ '-' := isDigit_ne hd0 (by decide)
    have hstar : d0 ≠ '*' := isDigit_ne hd0 (by decide)
    have hpipe : d0 ≠ '|' := isDigit_ne hd0 (by decide)
    have hndot : d1 ≠ '.' := isDigit_ne hd1 (by decide)
    have hnparen : d1 ≠ ')' := isDigit_ne hd1 (by decide)
    have hline : (d0 :: d1 :: ds') ++ m :: ' ' :: r =
        d0 :: d1 :: (ds' ++ m :: ' ' :: r) := by simp
    have hstrip := stripL_cons_of_not_space
      (t := d1 :: (ds' ++ m :: ' ' :: r)) hws0
    constructor
    · rw [hline]
      unfold classifyLine
      rw [if_neg (by simp [startsWithL, hhash]),
        if_neg (by simp [startsWithL, hhash]),
        if_neg (by simp [startsWithL, hhash]),
        if_neg (by simp [hstrip, hdash]),
        if_neg (by simp [hstrip, startsWithL, hpipe]),
        if_neg (by simp [hstrip, startsWithL, hdash, hstar]),
        if_neg (by simp [sliceL, hndot, hnparen]),
        if_pos (by simp [hstrip])]
    · have hdt : dropTrailingWs (m :: ' ' :: r) ≠ [] := by
        rw [dropTrailingWs_cons_of_not_space hmws]
        simp
      have hdw : ((d0 :: d1 :: ds') ++ m :: ' ' :: r).dropWhile isPySpace =
          (d0 :: d1 :: ds') ++ m :: ' ' :: r := by
        rw [hline]
        exact List.dropWhile_cons_of_neg (by simp [hws0])
      unfold stripL
      rw [hdw, dropTrailingWs_append _ hdt,
        dropTrailingWs_cons_of_not_space hmws]
      have : (d0 :: d1 :: ds') ++ m ::
          ((' ' :: r).reverse.dropWhile isPySpace).reverse =
          ((d0 :: d1 :: ds') ++ [m]) ++
            ((' ' :: r).reverse.dropWhile isPySpace).reverse := by
        simp
      rw [this]
      exact startsWithL_self_append _ _

theorem multi_digit_marker_is_paragraph_witness :
    classifyLine ("10".data ++ ')' :: ' ' :: ("Item".data)) =
      some (Block.paragraph
        (parse_line_with_links
          ((stripL ("10".data ++ ')' :: ' ' :: ("Item".data))).take 2000))) ∧
    startsWithL (stripL ("10".data ++ ')' :: ' ' :: ("Item".data)))
      ("10".data ++ [')']) = true :=
  multi_digit_marker_is_paragraph ("10".data) ("Item".data) ')' (by decide)
    (by decide) (Or.inr rfl)

example :
    classifyLine ("10. Item".data) =
      some (Block.paragraph [Span.text ("10. Item".data)]) := by decide

example :
    classifyLine ("10) Item".data) =
      some (Block.paragraph [Span.text ("10) Item".data)]) := by decide

/-- The row-scanning loop of `extract_table_value` (src/digest.py:756-761):
return the trimmed third `|`-cell of the first line whose trimmed form starts
with `"| " ++ key` and which splits into at least 3 cells; lines that match
the key but have fewer cells are skipped and the scan continues. -/
def findTableRow (key : List Char) : List (List Char) → List Char
  | [] => []
  | l :: ls =>
    if startsWithL (stripL l) ('|' :: ' ' :: key) then
      if 3 ≤ (splitOnChar '|' l).length then
        ((splitOnChar '|' l).map stripL).getD 2 []
      else findTableRow key ls
    else findTableRow key ls

def nlSectionLit : List Char := ['\n', '#', '#', ' ']

/-- `extract_table_value` (src/digest.py:743-763): find the first occurrence
of the section marker, bound the section by the next `"\n## "` (or the end of
the text), then scan the section's lines for the keyed table row. -/
def extract_table_value (text section_marker row_key : List Char) : List Char :=
  match findSub text section_marker 0 with
  | none => []
  | some s =>
    let section_text :=
      match findSub text nlSectionLit (s + section_marker.length) with
      | some n => sliceL text s n
      | none => text.drop s
    findTableRow row_key (splitOnChar '\n' section_text)

/-- The amended table-lookup reading, phrased with `List.find?`: the value is
the trimmed third cell of the FIRST section line whose trimmed form starts
with `"| " ++ key` (a prefix match, not first-cell equality) and which has at
least 3 `|`-cells; empty when no such line exists (and also when that line's
value cell is blank). -/
def extract_table_value_spec (text section_marker row_key : List Char) :
    List Char :=
  match findSub text section_marker 0 with
  | none => []
  | some s =>
    let section_text :=
      match findSub text nlSectionLit (s + section_marker.length) with
      | some n => sliceL text s n
      | none => text.drop s
    match (splitOnChar '\n' section_text).find? (fun l =>
        startsWithL (stripL l) ('|' :: ' ' :: row_key) &&
          decide (3 ≤ (splitOnChar '|' l).length)) with
    | some l => ((splitOnChar '|' l).map stripL).getD 2 []
    | none => []

theorem findTableRow_eq_find (key : List Char) (ls : List (List Char)) :
    findTableRow key ls =
      match ls.find? (fun l =>
          startsWithL (stripL l) ('|' :: ' ' :: key) &&
            decide (3 ≤ (splitOnChar '|' l).length)) with
      | some l => ((splitOnChar '|' l).map stripL).getD 2 []
      | none => [] := by
  induction ls with
  | nil => rfl
  | cons l ls ih =>
    by_cases h1 : startsWithL (stripL l) ('|' :: ' ' :: key) = true
    · by_cases h2 : 3 ≤ (splitOnChar '|' l).length
      · rw [findTableRow, if_pos h1, if_pos h2, List.find?_cons_of_pos]
        simp [h1, h2]
      · rw [findTableRow, if_pos h1, if_neg h2, List.find?_cons_of_neg, ih]
        simp [h1, h2]
    · simp only [Bool.not_eq_true] at h1
      rw [findTableRow, if_neg (by simp [h1]), List.find?_cons_of_neg, ih]
      simp [h1]

/-- C5 (amended): `extract_table_value` returns exactly the first-match value
described by `extract_table_value_spec`: row selection is by prefix on
`"| " ++ key` (not first-cell equality), rows with fewer than 3 cells are
skipped, and the result is empty exactly when the selected row's value cell
is blank or no row is selected. -/
theorem extract_table_value_amended (text section_marker row_key : List Char) :
    extract_table_value text section_marker row_key =
      extract_table_value_spec text section_marker row_key := by
  unfold extract_table_value extract_table_value_spec
  cases findSub text section_marker 0 with
  | none => rfl
  | some s =>
    simp only
    exact findTableRow_eq_find _ _

/-- C5 (counterexample): with section `"## S"` and row label `"key"`, the row
`"| keyX | val |"` — whose first cell is `"keyX"`, not `"key"` — still
matches by prefix, so the result is the non-empty `"val"` although no row's
first cell equals the label; this refutes the claimed "exactly when the
section contains a row whose first cell equals the row label". -/
theorem extract_table_value_prefix_counterexample :
    extract_table_value ("## S\n| keyX | val |".data) ("## S".data)
        ("key".data) = ("val".data) ∧
    ("val".data ≠ ([] : List Char)) ∧
    ∀ l ∈ splitOnChar '\n' ("## S\n| keyX | val |".data),
      ((splitOnChar '|' l).map stripL).getD 1 [] ≠ ("key".data) := by
  refine ⟨by decide, by decide, by decide⟩

def tier5 : List Char := "★★★★★ (90%+)".data
def tier4 : List Char := "★★★★☆ (70-89%)".data
def tier3 : List Char := "★★★☆☆ (50-69%)".data
def tier2 : List Char := "★★☆☆☆ (30-49%)".data
def tier1 : List Char := "★☆☆☆☆ (<30%)".data
def infoNone : List Char := "정보 없음".data

/-- Confidence normalization body (src/digest.py:916-934): for a non-empty
raw cell, count the filled-star glyphs and map 5..1 to the fixed tier
strings; any other count keeps the raw cell (the code's inner
`confidence_str if confidence_str else ...` is reached only with a non-empty
cell, so it always yields the cell); for an empty cell the variable stays
`""`. -/
def normalize_confidence_raw (cell : List Char) : List Char :=
  if cell ≠ [] then
    if cell.count '★' = 5 then tier5
    else if cell.count '★' = 4 then tier4
    else if cell.count '★' = 3 then tier3
    else if cell.count '★' = 2 then tier2
    else if cell.count '★' = 1 then tier1
    else cell
  else []

/-- The stored confidence value: the normalization above followed by the
`confidence or "정보 없음"` default applied when the properties record is
assembled (src/digest.py:986). -/
def normalize_confidence (cell : List Char) : List Char :=
  let c := normalize_confidence_raw cell
  if c = [] then infoNone else c

theorem normalize_confidence_eq_of_raw {cell X : List Char}
    (hraw : normalize_confidence_raw cell = X) (hX : X ≠ []) :
    normalize_confidence cell = X := by
  show (if normalize_confidence_raw cell = [] then infoNone
    else normalize_confidence_raw cell) = X
  rw [hraw, if_neg hX]

/-- C9: confidence normalization is a total function of the cell's `★` count:
counts 5..1 give the five fixed tiers, count 0 gives the raw cell verbatim if
non-empty and the `"정보 없음"` sentinel otherwise, and the normalization is
idempotent (every output is a fixed point). -/
theorem confidence_mapping (cell : List Char) :
    (cell.count '★' = 5 → normalize_confidence cell = tier5) ∧
    (cell.count '★' = 4 → normalize_confidence cell = tier4) ∧
    (cell.count '★' = 3 → normalize_confidence cell = tier3) ∧
    (cell.count '★' = 2 → normalize_confidence cell = tier2) ∧
    (cell.count '★' = 1 → normalize_confidence cell = tier1) ∧
    (cell.count '★' = 0 →
      normalize_confidence cell = if cell = [] then infoNone else cell) ∧
    normalize_confidence (normalize_confidence cell) =
      normalize_confidence cell := by
  by_cases hc : cell = []
  · subst hc
    refine ⟨by decide, by decide, by decide, by decide, by decide,
      fun _ => by decide, by decide⟩
  · have hraw : normalize_confidence_raw cell =
        (if cell.count '★' = 5 then tier5
         else if cell.count '★' = 4 then tier4
         else if cell.count '★' = 3 then tier3
         else if cell.count '★' = 2 then tier2
         else if cell.count '★' = 1 then tier1
         else cell) := by
      unfold normalize_confidence_raw
      rw [if_pos hc]
    by_cases h5 : cell.count '★' = 5
    · have hn : normalize_confidence cell = tier5 :=
        normalize_confidence_eq_of_raw (by rw [hraw, if_pos h5]) (by decide)
      refine ⟨fun _ => hn, ?_, ?_, ?_, ?_, ?_, ?_⟩ <;>
        first
          | (intro hk; omega)
          | (rw [hn]; decide)
    · by_cases h4 : cell.count '★' = 4
      · have hn : normalize_confidence cell = tier4 :=
          normalize_confidence_eq_of_raw
            (by rw [hraw, if_neg h5, if_pos h4]) (by decide)
        refine ⟨fun hk => absurd hk h5, fun _ => hn, ?_, ?_, ?_, ?_, ?_⟩ <;>
          first
            | (intro hk; omega)
            | (rw [hn]; decide)
      · by_cases h3 : cell.count '★' = 3
        · have hn : normalize_confidence cell = tier3 :=
            normalize_confidence_eq_of_raw
              (by rw [hraw, if_neg h5, if_neg h4, if_pos h3]) (by decide)
          refine ⟨fun hk => absurd hk h5, fun hk => absurd hk h4,
            fun _ => hn, ?_, ?_, ?_, ?_⟩ <;>
            first
              | (intro hk; omega)
              | (rw [hn]; decide)
        · by_cases h2 : cell.count '★' = 2
          · have hn : normalize_confidence cell = tier2 :=
              normalize_confidence_eq_of_raw
                (by rw [hraw, if_neg h5, if_neg h4, if_neg h3, if_pos h2])
                (by decide)
            refine ⟨fun hk => absurd hk h5, fun hk => absurd hk h4,
              fun hk => absurd hk h3, fun _ => hn, ?_, ?_, ?_⟩ <;>
              first
                | (intro hk; omega)
                | (rw [hn]; decide)
          · by_cases h1 : cell.count '★' = 1
            · have hn : normalize_confidence cell = tier1 :=
                normalize_confidence_eq_of_raw
                  (by rw [hraw, if_neg h5, if_neg h4, if_neg h3, if_neg h2,
                    if_pos h1]) (by decide)
              refine ⟨fun hk => absurd hk h5, fun hk => absurd hk h4,
                fun hk => absurd hk h3, fun hk => absurd hk h2,
                fun _ => hn, ?_, ?_⟩ <;>
                first
                  | (intro hk; omega)
                  | (rw [hn]; decide)
            · have hn : normalize_confidence cell = cell :=
                normalize_confidence_eq_of_raw
                  (by rw [hraw, if_neg h5, if_neg h4, if_neg h3, if_neg h2,
                    if_neg h1]) hc
              refine ⟨fun hk => absurd hk h5, fun hk => absurd hk h4,
                fun hk => absurd hk h3, fun hk => absurd hk h2,
                fun hk => absurd hk h1, fun _ => by rw [hn, if_neg hc],
                by rw [hn, hn]⟩

theorem confidence_mapping_witness :
    ("★★★☆☆".data).count '★' = 3 ∧
    normalize_confidence ("★★★☆☆".data) = tier3 :=
  ⟨by decide, (confidence_mapping (("★★★☆☆".data))).2.2.1 (by decide)⟩

def summaryAnchor : List Char := "💡 한줄 요약:".data

/-- The summary extraction of `extract_digest_properties`
(src/digest.py:832-838): find the literal anchor; if a newline follows, slice
from the anchor's index plus 11 to that newline and trim. The anchor is 8
code points long and Python slices by code points, so the hard-coded 11
(consistent with counting the emoji as its 4 UTF-8 bytes and the other 7
characters as 1 each: 8 - 1 + 4 = 11) skips 3 extra characters after the
anchor. -/
def extract_summary (text : List Char) : List Char :=
  match findSub text summaryAnchor 0 with
  | none => []
  | some i =>
    match findSub text ['\n'] i with
    | none => []
    | some e => stripL (sliceL text (i + 11) e)

/-- C6 (code bug): the anchor is 8 code points long, yet the code slices from
index + 11, so the first characters of the summary are clipped: on
`"💡 한줄 요약: 상승 전망\n"` the code yields `"전망"`, while the text
strictly between the anchor end (index 8) and the newline (index 14), trimmed
— what the claim specifies — is `"상승 전망"`. -/
theorem summary_offset_bug :
    summaryAnchor.length = 8 ∧
    extract_summary ("💡 한줄 요약: 상승 전망\n".data) = ("전망".data) ∧
    stripL (sliceL ("💡 한줄 요약: 상승 전망\n".data) 8 14) =
      ("상승 전망".data) := by
  refine ⟨by decide, by decide, by decide⟩

def digitsToNat (ds : List Char) : Nat :=
  ds.foldl (fun a c => 10 * a + (c.toNat - 48)) 0

/-- Python `float()` on a matched group of the shape `digits[.digits]`:
integer part plus fraction, written as the single quotient
`(ip·10^l + frac) / 10^l` so the value is built with `mkRat` (the groups the
matchers produce always have this shape, with every character before an
optional dot, and after it, a decimal digit). -/
def parseFloat (cs : List Char) : Rat :=
  let ip := digitsToNat (cs.takeWhile Char.isDigit)
  match cs.dropWhile Char.isDigit with
  | '.' :: fr =>
    let ds := fr.takeWhile Char.isDigit
    mkRat (ip * 10 ^ ds.length + digitsToNat ds) (10 ^ ds.length)
  | _ => mkRat ip 1

/-- The group `(\d{4,5}\.?\d*)` at the head of `cs`. Greedy and
deterministic: with a digit run of length r, r < 4 fails; r = 4 or 5 takes
the whole run and then the optional `.`-plus-digits extension; r ≥ 6 lets
`\d{4,5}` take 5, `\.?` match empty (a digit follows) and `\d*` take the rest
of the run, so the group is exactly the run. -/
def groupD45 (cs : List Char) : Option (List Char × List Char) :=
  let run := cs.takeWhile Char.isDigit
  let rest := cs.dropWhile Char.isDigit
  if run.length < 4 then none
  else if 6 ≤ run.length then some (run, rest)
  else
    match rest with
    | '.' :: r2 =>
      some (run ++ '.' :: r2.takeWhile Char.isDigit, r2.dropWhile Char.isDigit)
    | _ => some (run, rest)

/-- The group `(\d{4}\.?\d*)`: as above with `\d{4}` exact, so a run of
length ≥ 5 is consumed whole by `\d{4}` plus `\d*` with no dot. -/
def groupD4 (cs : List Char) : Option (List Char × List Char) :=
  let run := cs.takeWhile Char.isDigit
  let rest := cs.dropWhile Char.isDigit
  if run.length < 4 then none
  else if 5 ≤ run.length then some (run, rest)
  else
    match rest with
    | '.' :: r2 =>
      some (run ++ '.' :: r2.takeWhile Char.isDigit, r2.dropWhile Char.isDigit)
    | _ => some (run, rest)

/-- The group `(\d+\.?\d*)`: a non-empty digit run with the optional
`.`-plus-digits extension. -/
def groupDPlus (cs : List Char) : Option (List Char × List Char) :=
  let run := cs.takeWhile Char.isDigit
  let rest := cs.dropWhile Char.isDigit
  if run = [] then none
  else
    match rest with
    | '.' :: r2 =>
      some (run ++ '.' :: r2.takeWhile Char.isDigit, r2.dropWhile Char.isDigit)
    | _ => some (run, rest)

/-- `(\d+\.?\d*)%`: the group must be followed by a literal percent sign. No
backtracked shorter group can succeed, since any shorter `\d*`/`\.?` leaves a
digit or dot where `%` is required. -/
def groupDPlusPct (cs : List Char) : Option (List Char × List Char) :=
  match groupDPlus cs with
  | some (g, '%' :: r) => some (g, r)
  | _ => none

/-- `[:\s]+`: a non-empty maximal run of colons/whitespace. Deterministic in
every pattern below because a digit must follow and the class has no digits. -/
def dropColonSpaces (cs : List Char) : Option (List Char) :=
  let run := cs.takeWhile (fun c => c = ':' || isPySpace c)
  if run = [] then none
  else some (cs.dropWhile (fun c => c = ':' || isPySpace c))

/-- `S&P\s*500[:\s]+(\d{4,5}\.?\d*)` with `re.IGNORECASE`, anchored at the
head of `cs` (`\s*` is maximal since `5` is not whitespace). -/
def matchSP500At (cs : List Char) : Option (List Char) :=
  (dropLitCI ("S&P".data) cs).bind fun r1 =>
    (dropLitCI ("500".data) (r1.dropWhile isPySpace)).bind fun r2 =>
      (dropColonSpaces r2).bind fun r3 =>
        (groupD45 r3).map (·.1)

/-- `S&P[:\s]+(\d{4,5}\.?\d*)` with `re.IGNORECASE`, anchored. -/
def matchSPAt (cs : List Char) : Option (List Char) :=
  (dropLitCI ("S&P".data) cs).bind fun r1 =>
    (dropColonSpaces r1).bind fun r2 =>
      (groupD45 r2).map (·.1)

/-- `KOSPI[:\s]+(\d{4,5}\.?\d*)` with `re.IGNORECASE`, anchored. -/
def matchKospiAt (cs : List Char) : Option (List Char) :=
  (dropLitCI ("KOSPI".data) cs).bind fun r1 =>
    (dropColonSpaces r1).bind fun r2 =>
      (groupD45 r2).map (·.1)

/-- `USD/KRW[:\s]+(\d{4}\.?\d*)` with `re.IGNORECASE`, anchored. -/
def matchUsdKrwAt (cs : List Char) : Option (List Char) :=
  (dropLitCI ("USD/KRW".data) cs).bind fun r1 =>
    (dropColonSpaces r1).bind fun r2 =>
      (groupD4 r2).map (·.1)

/-- `원달러[:\s]+(\d{4}\.?\d*)`, anchored (case folding is a no-op on the
Hangul label). -/
def matchWonDollarAt (cs : List Char) : Option (List Char) :=
  (dropLitCI ("원달러".data) cs).bind fun r1 =>
    (dropColonSpaces r1).bind fun r2 =>
      (groupD4 r2).map (·.1)

/-- `10Y[:\s]+(\d+\.?\d*)%` with `re.IGNORECASE`, anchored. -/
def matchBond10YAt (cs : List Char) : Option (List Char) :=
  (dropLitCI ("10Y".data) cs).bind fun r1 =>
    (dropColonSpaces r1).bind fun r2 =>
      (groupDPlusPct r2).map (·.1)

/-- `10년물[:\s]+(\d+\.?\d*)%`, anchored. -/
def matchBondKrAt (cs : List Char) : Option (List Char) :=
  (dropLitCI ("10년물".data) cs).bind fun r1 =>
    (dropColonSpaces r1).bind fun r2 =>
      (groupDPlusPct r2).map (·.1)

/-- `(\d+\.?\d*)`, anchored — the number search in the VIX cell. -/
def matchNumAt (cs : List Char) : Option (List Char) :=
  (groupDPlus cs).map (·.1)

/-- `re.search`: try the anchored matcher at each position, left to right. -/
def searchPat (m : List Char → Option (List Char)) : List Char → Option (List Char)
  | [] => m []
  | c :: cs =>
    match m (c :: cs) with
    | some g => some g
    | none => searchPat m cs

/-- The per-field pattern loop (e.g. src/digest.py:867-873): try each
pattern with `re.search`; a match whose value passes the gate is accepted and
the loop breaks; a match failing the gate falls through to the next pattern;
no pattern left means no value. -/
def scanPatterns (pats : List (List Char → Option (List Char)))
    (gate : Rat → Bool) (text : List Char) : Option Rat :=
  match pats with
  | [] => none
  | p :: ps =>
    match searchPat p text with
    | some g =>
      if gate (parseFloat g) then some (parseFloat g)
      else scanPatterns ps gate text
    | none => scanPatterns ps gate text

def regimeMarker : List Char := "## 0. 시장 레짐".data

/-- VIX extraction (src/digest.py:852-857): take the "변동성 환경" table
cell; if it is non-empty and contains the literal "VIX", the first number in
the cell is the VIX value — no range gate. -/
def extract_vix (text : List Char) : Rat :=
  let s := extract_table_value text regimeMarker ("변동성 환경".data)
  if s ≠ [] ∧ (findSub s ("VIX".data) 0).isSome then
    match searchPat matchNumAt s with
    | some g => parseFloat g
    | none => 0
  else 0

/-- S&P 500 extraction (src/digest.py:866-873): two alternate label
patterns, gate `value > 1000`. -/
def extract_sp500 (text : List Char) : Rat :=
  (scanPatterns [matchSP500At, matchSPAt]
    (fun v => decide (1000 < v)) text).getD 0

/-- KOSPI extraction (src/digest.py:876-880): single pattern, gate
`value > 1000`. -/
def extract_kospi (text : List Char) : Rat :=
  (scanPatterns [matchKospiAt] (fun v => decide (1000 < v)) text).getD 0

/-- USD/KRW extraction (src/digest.py:883-890): two alternate label
patterns, gate `1000 ≤ value ≤ 2000`. -/
def extract_usdkrw (text : List Char) : Rat :=
  (scanPatterns [matchUsdKrwAt, matchWonDollarAt]
    (fun v => decide (1000 ≤ v) && decide (v ≤ 2000)) text).getD 0

/-- 10-year-yield extraction (src/digest.py:893-901): two alternate label
patterns, gate `0.5 ≤ value ≤ 10`, stored divided by 100. -/
def extract_bond_10y (text : List Char) : Rat :=
  match scanPatterns [matchBond10YAt, matchBondKrAt]
      (fun v => decide (mkRat 1 2 ≤ v) && decide (v ≤ 10)) text with
  | some v => v / 100
  | none => 0

/-- The five numeric properties; 0.0 means "not determined". -/
structure MarketNums where
  vix : Rat
  sp500 : Rat
  kospi : Rat
  usdkrw : Rat
  bond_10y : Rat
deriving DecidableEq, Repr

/-- The numeric fields extracted from the digest text alone
(src/digest.py:852-901). -/
def extractTextNums (text : List Char) : MarketNums :=
  { vix := extract_vix text, sp500 := extract_sp500 text,
    kospi := extract_kospi text, usdkrw := extract_usdkrw text,
    bond_10y := extract_bond_10y text }

/-- The market-data fallback merge (src/digest.py:957-972): run only when at
least one field is at the 0.0 default; each field is replaced by the quote
value exactly when the field is 0.0 and the quote value is positive. -/
def backfillMerge (p q : MarketNums) : MarketNums :=
  if p.vix = 0 ∨ p.sp500 = 0 ∨ p.kospi = 0 ∨ p.usdkrw = 0 ∨ p.bond_10y = 0 then
    { vix := if p.vix = 0 ∧ 0 < q.vix then q.vix else p.vix,
      sp500 := if p.sp500 = 0 ∧ 0 < q.sp500 then q.sp500 else p.sp500,
      kospi := if p.kospi = 0 ∧ 0 < q.kospi then q.kospi else p.kospi,
      usdkrw := if p.usdkrw = 0 ∧ 0 < q.usdkrw then q.usdkrw else p.usdkrw,
      bond_10y := if p.bond_10y = 0 ∧ 0 < q.bond_10y then q.bond_10y
        else p.bond_10y }
  else p

def zeroNums : MarketNums := ⟨0, 0, 0, 0, 0⟩

/-- The numeric part of `extract_digest_properties`: text extraction, then
the conditional backfill; the external quote result is a parameter `q`
(`zeroNums` models the quote source returning no data). -/
def extractMarketNumbers (text : List Char) (q : MarketNums) : MarketNums :=
  backfillMerge (extractTextNums text) q

theorem merge_field (a b : Rat) :
    (if a = 0 ∧ 0 < b then b else a) = a ∨
      (a = 0 ∧ 0 < b ∧ (if a = 0 ∧ 0 < b then b else a) = b) := by
  by_cases h : a = 0 ∧ 0 < b
  · exact Or.inr ⟨h.1, h.2, if_pos h⟩
  · exact Or.inl (if_neg h)

/-- C1: the backfill merge overwrites a field only when that field is still
at its default 0.0 and the quote value is positive: every output field is
either the extracted value unchanged, or the quote value with the field
previously 0.0 and the quote positive; in particular an extracted
`vix = 21.3` survives any quote result. -/
theorem backfill_never_overwrites (p q : MarketNums) :
    ((backfillMerge p q).vix = p.vix ∨
      (p.vix = 0 ∧ 0 < q.vix ∧ (backfillMerge p q).vix = q.vix)) ∧
    ((backfillMerge p q).sp500 = p.sp500 ∨
      (p.sp500 = 0 ∧ 0 < q.sp500 ∧ (backfillMerge p q).sp500 = q.sp500)) ∧
    ((backfillMerge p q).kospi = p.kospi ∨
      (p.kospi = 0 ∧ 0 < q.kospi ∧ (backfillMerge p q).kospi = q.kospi)) ∧
    ((backfillMerge p q).usdkrw = p.usdkrw ∨
      (p.usdkrw = 0 ∧ 0 < q.usdkrw ∧ (backfillMerge p q).usdkrw = q.usdkrw)) ∧
    ((backfillMerge p q).bond_10y = p.bond_10y ∨
      (p.bond_10y = 0 ∧ 0 < q.bond_10y ∧
        (backfillMerge p q).bond_10y = q.bond_10y)) ∧
    (p.vix = 21.3 → (backfillMerge p q).vix = 21.3) := by
  unfold backfillMerge
  by_cases htrig : p.vix = 0 ∨ p.sp500 = 0 ∨ p.kospi = 0 ∨ p.usdkrw = 0 ∨
      p.bond_10y = 0
  · rw [if_pos htrig]
    refine ⟨merge_field _ _, merge_field _ _, merge_field _ _,
      merge_field _ _, merge_field _ _, ?_⟩
    intro h213
    have hno : ¬(p.vix = 0 ∧ 0 < q.vix) := by
      intro hx
      rw [h213] at hx
      norm_num at hx
    show (if p.vix = 0 ∧ 0 < q.vix then q.vix else p.vix) = 21.3
    rw [if_neg hno, h213]
  · rw [if_neg htrig]
    exact ⟨Or.inl rfl, Or.inl rfl, Or.inl rfl, Or.inl rfl, Or.inl rfl,
      fun h => h⟩

theorem backfill_never_overwrites_witness :
    (backfillMerge ⟨21.3, 0, 0, 0, 0⟩ ⟨99, 5000, 2500, 1300, 1 / 25⟩).vix =
      21.3 :=
  (backfill_never_overwrites ⟨21.3, 0, 0, 0, 0⟩
    ⟨99, 5000, 2500, 1300, 1 / 25⟩).2.2.2.2.2 rfl

/-- C8: with the quote source returning no data (`zeroNums`), the S&P-500
plausibility gate holds: `"S&P 500: 5812.4 points"` yields 5812.4 (pattern
matches, 5812.4 > 1000), while `"S&P 500: 812.4"` yields 0.0 (only 3 digits
follow the label, so neither `\d{4,5}` pattern matches at all). -/
theorem sp500_plausibility_gate :
    (extractMarketNumbers ("S&P 500: 5812.4 points".data) zeroNums).sp500 =
      5812.4 ∧
    (extractMarketNumbers ("S&P 500: 812.4".data) zeroNums).sp500 = 0 := by
  constructor
  · have h : (extractMarketNumbers ("S&P 500: 5812.4 points".data)
        zeroNums).sp500 = mkRat 29062 5 := by decide
    rw [h, Rat.mkRat_eq_div]
    norm_num
  · have h : (extractMarketNumbers ("S&P 500: 812.4".data)
        zeroNums).sp500 = mkRat 0 1 := by decide
    rw [h, Rat.mkRat_eq_div]
    norm_num
